import Mathlib

/-!
Shallow embedding of scqubits/core/namedslots_array.py and proofs about it.

Numbers (Python floats/complex values appearing in axis value sequences and
index expressions) are modelled as rationals; every concrete comparison used
in the development is far from the 1e-9 tolerance boundary, so the rational
model decides each comparison the same way the floating-point code does.
Python exceptions are modelled with an explicit error monad.
-/

set_option maxRecDepth 4000

namespace NamedSlots

/-- Python exception kinds raised by the embedded code. -/
inductive PyError
  | typeError
  | valueError
  | keyError
  | indexError
deriving DecidableEq, Repr

/-- Absolute value, written out so that it evaluates by reduction (np.abs
and the magnitudes used by math.isclose). -/
def npAbs (q : ℚ) : ℚ := if q < 0 then -q else q

/-- npAbs agrees with the ambient absolute value. -/
theorem npAbs_eq_abs (q : ℚ) : npAbs q = |q| := by
  unfold npAbs
  rcases lt_or_le q 0 with h | h
  · rw [if_pos h, abs_of_neg h]
  · rw [if_neg (not_lt.mpr h), abs_of_nonneg h]

/-- Binary maximum, written out so that it evaluates by reduction. -/
def maxQ (a b : ℚ) : ℚ := if a ≤ b then b else a

/-- math.isclose with default tolerances (rel_tol = 1e-9, abs_tol = 0),
over rationals: the absolute difference must be at most 1e-9 times the
larger magnitude. -/
def isclose (a b : ℚ) : Bool :=
  npAbs (a - b) ≤ (1 / 1000000000) * maxQ (npAbs a) (npAbs b)

/-- Accumulator loop of np.argmin over the list of absolute differences:
xs are the remaining values, i the position of the head of xs in the full
list, best the current best position and bestd its distance. A new position
wins only on strictly smaller distance, so the first minimizer is kept. -/
def argminFrom (v : ℚ) : List ℚ → Nat → Nat → ℚ → Nat
  | [], _, best, _ => best
  | x :: xs, i, best, bestd =>
      if npAbs (x - v) < bestd then argminFrom v xs (i + 1) i (npAbs (x - v))
      else argminFrom v xs (i + 1) best bestd

/-- idx_for_value(value, param_vals): np.abs(param_vals - value).argmin(),
returned if math.isclose holds at that location, otherwise ValueError.
An empty array also raises ValueError (argmin of an empty sequence). -/
def idx_for_value (value : ℚ) (param_vals : List ℚ) : Except PyError Nat :=
  match param_vals with
  | [] => .error .valueError
  | x :: xs =>
      let location := argminFrom value xs 1 0 (npAbs (x - value))
      if isclose (param_vals.getD location 0) value then .ok location
      else .error .valueError

/-- First value stored under key k in an association list (Python dict
lookup; dicts built by the code have no duplicate keys). -/
def lookupName (d : List (String × List ℚ)) (k : String) : Option (List ℚ) :=
  (d.find? (fun p => p.1 = k)).map (fun p => p.2)

/-- Python dict assignment d[k] = v on an ordered association list: updates
the first entry holding the key in place when the key is present,
otherwise appends a new entry at the end. -/
def odictSet : List (String × List ℚ) → String → List ℚ →
    List (String × List ℚ)
  | [], k, v => [(k, v)]
  | (k0, v0) :: d, k, v =>
      if k0 = k then (k, v) :: d else (k0, v0) :: odictSet d k v

/-- The dict comprehension step (name, mapping[name]): the looked-up pair,
or KeyError when the name is absent. -/
def lookupEntry (m : List (String × List ℚ)) (n : String) :
    Except PyError (String × List ℚ) :=
  match lookupName m n with
  | some vs => Except.ok (n, vs)
  | none => Except.error PyError.keyError

/-- Parameters, keeping only the two primary fields; every other attribute
set by Parameters.__init__ (names, index_by_name, name_by_index,
paramvals_by_index, paramvals_by_name) is a deterministic derivation of
these two and is modelled below as a function. -/
structure Parameters where
  paramnames_list : List String
  ordered_dict : List (String × List ℚ)
deriving DecidableEq, Repr

/-- Parameters.__init__: names are the supplied ordering list or the dict
keys; ordered_dict is built from the name list, looking each name up in the
given mapping (KeyError when absent; duplicated names collapse as in an
OrderedDict built from repeated keys). -/
def Parameters.init (paramvals_by_name : List (String × List ℚ))
    (paramnames_list : Option (List String)) : Except PyError Parameters := do
  let names := paramnames_list.getD (paramvals_by_name.map (fun p => p.1))
  let pairs ← names.mapM (lookupEntry paramvals_by_name)
  let od := pairs.foldl (fun d p => odictSet d p.1 p.2) []
  return ⟨names, od⟩

/-- Parameters.__getitem__ with a string key: paramvals_by_name[key]. -/
def Parameters.getName (p : Parameters) (n : String) : Except PyError (List ℚ) :=
  match lookupName p.ordered_dict n with
  | some vs => .ok vs
  | none => .error .keyError

/-- Parameters.__getitem__ with an int key:
paramvals_by_name[paramnames_list[key]]. -/
def Parameters.getSlot (p : Parameters) (i : Nat) : Except PyError (List ℚ) :=
  match p.paramnames_list.get? i with
  | some n => p.getName n
  | none => .error .indexError

/-- index_by_name: a dict comprehension over enumerate(paramnames_list), so
with a duplicated name the last position wins. -/
def Parameters.index_by_name (p : Parameters) (n : String) : Option Nat :=
  ((p.paramnames_list.enum.filter (fun q => q.2 = n)).getLast?).map (fun q => q.1)

/-- paramvals_list property: the value sequences in name-list order (for a
well-formed Parameters every lookup succeeds; getD only fills the
impossible branch). -/
def Parameters.paramvals_list (p : Parameters) : List (List ℚ) :=
  p.paramnames_list.map (fun n => (lookupName p.ordered_dict n).getD [])

/-- A standard numpy index for one axis: an integer, a slice with optional
integer bounds and step, or Python None (np.newaxis, reachable through a
name-based slice whose bounds are all absent). -/
inductive NpIndex
  | int (n : Int)
  | slice (start stop step : Option Int)
  | none
deriving DecidableEq, Repr

/-- One component of an extended slice: absent, an integer, a non-integer
number (float/complex, modelled as a rational), or a string (only
meaningful as the start of a name-based slice). -/
inductive GSliceEntry
  | none
  | int (n : Int)
  | num (q : ℚ)
  | str (s : String)
deriving DecidableEq, Repr

/-- One raw index entry of the extended syntax: an integer, a non-integer
number, or a slice-like structure. -/
inductive GIndex
  | int (n : Int)
  | num (q : ℚ)
  | slice (start stop step : GSliceEntry)
deriving DecidableEq, Repr

/-- The state GIndexObject.__init__ leaves behind: the raw entry, the
captured axis name (None unless the entry was a name-based slice), the
classification tag and the standardized positional index. -/
structure GIndexObject where
  entry : GIndex
  name : Option String
  type : String
  std_index : NpIndex
deriving DecidableEq, Repr

/-- GIndexObject.std_slice_entry: a float/complex component is resolved by
nearest-value lookup against the value sequence of the slot given by the
POSITION of the entry (self.parameters[self.slot]); integers and None pass
through; anything else raises TypeError. -/
def stdSliceEntry (parameters : Parameters) (slot : Nat) :
    GSliceEntry → Except PyError (Option Int)
  | .num q => do
      let vals ← parameters.getSlot slot
      let i ← idx_for_value q vals
      return some (Int.ofNat i)
  | .int n => return some n
  | .none => return none
  | .str _ => .error .typeError

/-- GIndexObject construction (GIndexObject.__init__ running std): returns
the object with entry, captured name, type tag and standardized index, or
the exception std raises. -/
def GIndexObject.make (entry : GIndex) (parameters : Parameters) (slot : Nat) :
    Except PyError GIndexObject := do
  match entry with
  | .int n => return ⟨entry, Option.none, "int", .int n⟩
  | .num q => do
      let vals ← parameters.getSlot slot
      let i ← idx_for_value q vals
      return ⟨entry, Option.none, "val", .int (Int.ofNat i)⟩
  | .slice (.str nm) estop estep => do
      let start ← stdSliceEntry parameters slot estop
      let stop ← stdSliceEntry parameters slot estep
      match stop with
      | Option.none =>
          match start with
          | Option.none => return ⟨entry, some nm, "slice.name", NpIndex.none⟩
          | some n => return ⟨entry, some nm, "slice.name", NpIndex.int n⟩
      | some m => return ⟨entry, some nm, "slice.name", NpIndex.slice start (some m) Option.none⟩
  | .slice estart estop estep => do
      let start ← stdSliceEntry parameters slot estart
      let stop ← stdSliceEntry parameters slot estop
      let step ← match estep with
        | .none => pure (Option.none : Option Int)
        | .int n => stdSliceEntry parameters slot (.int n)
        | _ => Except.error PyError.typeError
      return ⟨entry, Option.none, "slice", NpIndex.slice start stop step⟩

/-- Clamp an integer into the closed interval [lo, hi]. -/
def clampInt (x lo hi : Int) : Int := max lo (min hi x)

/-- CPython slice normalization (PySlice_AdjustIndices): resolve defaults,
shift negative bounds by the length and clamp; a zero step raises
ValueError. Returns (start, stop, step). -/
def sliceBounds (start stop step : Option Int) (len : Nat) :
    Except PyError (Int × Int × Int) :=
  let st := step.getD 1
  if st = 0 then .error .valueError
  else
    let L : Int := len
    let lower : Int := if st > 0 then 0 else -1
    let upper : Int := if st > 0 then L else L - 1
    let s : Int := match start with
      | Option.none => if st > 0 then lower else upper
      | some a => clampInt (if a < 0 then a + L else a) lower upper
    let e : Int := match stop with
      | Option.none => if st > 0 then upper else lower
      | some b => clampInt (if b < 0 then b + L else b) lower upper
    .ok (s, e, st)

/-- Number of elements selected by a normalized slice (start s, stop e,
step st): the count of i = s, s + st, ... strictly before e in the
direction of st. -/
def sliceCount (s e st : Int) : Nat :=
  if st > 0 then ((e - s + st - 1) / st).toNat
  else ((s - e + (-st) - 1) / (-st)).toNat

/-- Python list/array element access with a single integer: negative
indices count from the end; out of range raises IndexError. -/
def pyGet {α : Type} [Inhabited α] (xs : List α) (n : Int) : Except PyError α :=
  let m := if n < 0 then n + xs.length else n
  if 0 ≤ m ∧ m < (xs.length : Int) then .ok (xs.getD m.toNat default)
  else .error .indexError

/-- Python list/array slicing along one axis: normalize the bounds, then
collect the selected elements in step order. -/
def npSliceSelect {α : Type} [Inhabited α] (xs : List α)
    (start stop step : Option Int) : Except PyError (List α) := do
  let (s, e, st) ← sliceBounds start stop step xs.length
  let cnt := sliceCount s e st
  return (List.range cnt).map (fun j => xs.getD (s + (j : Int) * st).toNat default)

/-- A dense n-dimensional array of rationals, as nested lists. -/
inductive NDArray
  | scalar (q : ℚ)
  | dim (xs : List NDArray)
deriving Repr

instance : Inhabited NDArray := ⟨.scalar 0⟩

/-- The numpy shape of an array (greedy along first children; arrays built
from numpy data are rectangular, for which this is the true shape). -/
def NDArray.shapeList : NDArray → List Nat
  | .scalar _ => []
  | .dim [] => [0]
  | .dim (x :: xs) => (x :: xs).length :: x.shapeList

/-- Standard numpy basic indexing with a tuple of per-axis indices: an
integer selects one element and reduces rank, a slice maps over the
selected elements, None (np.newaxis) inserts a length-1 axis; indexing
into a scalar raises IndexError (too many indices). -/
def applyIndexList : List NpIndex → NDArray → Except PyError NDArray
  | [], a => .ok a
  | _ :: _, .scalar _ => .error .indexError
  | idx :: rest, .dim xs =>
      match idx with
      | .int n => do
          let el ← pyGet xs n
          applyIndexList rest el
      | .slice a b c => do
          let sel ← npSliceSelect xs a b c
          let mapped ← sel.mapM (applyIndexList rest)
          return .dim mapped
      | .none => do
          let inner ← applyIndexList rest (.dim xs)
          return .dim [inner]

/-- One cell of the object array create_sliced builds in the ragged case:
an integer index leaves a numpy scalar, a slice leaves a 1-d array, and
None leaves a (1, L) array (modelled separately because its len() is 1). -/
inductive PCell
  | scalar (q : ℚ)
  | arr (xs : List ℚ)
  | newaxis (xs : List ℚ)
deriving DecidableEq, Repr

/-- Whether np.asarray(paramvals_list, dtype=object) coalesces the per-axis
value arrays into a single 2-d object array: it does exactly when the list
is non-empty and all value arrays have equal length. -/
def rectangular (lists : List (List ℚ)) : Bool :=
  match lists with
  | [] => false
  | l :: ls => ls.all (fun m => m.length = l.length)

/-- Row update parameter_array[i] = parameter_array[i][np_index] when
parameter_array is a 2-d object array of row length L: an integer index
broadcasts the selected scalar over the whole row; a slice result is
written back directly when its length is L, broadcast when its length is
1, and raises ValueError otherwise (could not broadcast); a None index
produces a 2-d value that cannot be broadcast into a row. -/
def assignRow (row : List ℚ) (idx : NpIndex) : Except PyError (List ℚ) :=
  match idx with
  | .int n => do
      let q ← pyGet row n
      return List.replicate row.length q
  | .slice a b c => do
      let sel ← npSliceSelect row a b c
      if sel.length = row.length then return sel
      else if sel.length = 1 then return List.replicate row.length (sel.getD 0 0)
      else .error .valueError
  | .none => .error .valueError

/-- Cell update parameter_array[i] = parameter_array[i][np_index] when
parameter_array is a 1-d (ragged) object array: the cell simply becomes
the result of indexing the stored value array. -/
def applyCell (vals : List ℚ) : NpIndex → Except PyError PCell
  | .int n => do
      let q ← pyGet vals n
      return .scalar q
  | .slice a b c => do
      let sel ← npSliceSelect vals a b c
      return .arr sel
  | .none => return .newaxis vals

/-- Parameters.create_sliced: parameter_array = np.asarray(paramvals_list,
dtype=object) (2-d when the value arrays all have equal length, 1-d
ragged otherwise); each position of np_indices indexes the corresponding
entry in place (IndexError past the end); afterwards only entries that are
still ndarrays of length greater than 1 are kept, in name order, and a new
Parameters is built from them. -/
def Parameters.create_sliced (p : Parameters) (np_indices : List NpIndex) :
    Except PyError Parameters := do
  let vals := p.paramvals_list
  if rectangular vals then do
    let rows ← np_indices.enum.foldlM (fun (rows : List (List ℚ)) pair => do
        match rows.get? pair.1 with
        | Option.none => Except.error PyError.indexError
        | some row => do
            let row2 ← assignRow row pair.2
            return rows.set pair.1 row2) vals
    let kept := (p.paramnames_list.zip rows).filter (fun pr => decide (1 < pr.2.length))
    Parameters.init kept Option.none
  else do
    let cells ← np_indices.enum.foldlM (fun (cells : List PCell) pair => do
        match cells.get? pair.1 with
        | Option.none => Except.error PyError.indexError
        | some c =>
            match c with
            | .arr xs => do
                let c2 ← applyCell xs pair.2
                return cells.set pair.1 c2
            | _ => Except.error PyError.typeError) (vals.map PCell.arr)
    let kept := (p.paramnames_list.zip cells).filterMap (fun pr =>
        match pr.2 with
        | PCell.arr xs => if 1 < xs.length then some (pr.1, xs) else Option.none
        | _ => Option.none)
    Parameters.init kept Option.none

/-- The default fixed value for one axis in create_reduced: the singleton
holding the first value of the axis (KeyError on an unknown name,
IndexError on an empty axis, in that order, as self[name][0] raises). -/
def firstValEntry (d : List (String × List ℚ)) (n : String) :
    Except PyError (List ℚ) :=
  match lookupName d n with
  | Option.none => Except.error PyError.keyError
  | some [] => Except.error PyError.indexError
  | some (x :: _) => Except.ok [x]

/-- One step of the overwrite loop of create_reduced:
reduced[name] = fixed_values[index], with IndexError when the fixed-value
list is too short. -/
def fixedStep (fv : List (List ℚ)) (d : List (String × List ℚ))
    (pair : Nat × String) : Except PyError (List (String × List ℚ)) :=
  match fv.get? pair.1 with
  | Option.none => Except.error PyError.indexError
  | some v => Except.ok (odictSet d pair.2 v)

/-- Parameters.create_reduced: fixed values default to the singleton first
value of each named axis; the full mapping is rebuilt and the named
entries are overwritten (or appended when absent), then a new Parameters
is built. -/
def Parameters.create_reduced (p : Parameters) (fixed_parametername_list : List String)
    (fixed_values : Option (List (List ℚ))) : Except PyError Parameters := do
  let fv ← match fixed_values with
    | some vs => pure vs
    | Option.none => fixed_parametername_list.mapM (firstValEntry p.ordered_dict)
  let base ← p.paramnames_list.mapM (lookupEntry p.ordered_dict)
  let based := base.foldl (fun d pr => odictSet d pr.1 pr.2) ([] : List (String × List ℚ))
  let red ← fixed_parametername_list.enum.foldlM (fixedStep fv) based
  Parameters.init red Option.none

/-- The labeled array: the dense data plus the attached Parameters. -/
structure NamedSlotsNdarray where
  data : NDArray
  parameters : Parameters
deriving Repr

/-- slot_count property: len(parameters.paramvals_by_name). -/
def NamedSlotsNdarray.slot_count (x : NamedSlotsNdarray) : Nat :=
  x.parameters.ordered_dict.length

/-- NamedSlotsNdarray.__new__: the leading dimensions of the input array
must equal, in order, the lengths of the value sequences; otherwise
ValueError. On success the Parameters are built from the mapping. -/
def NamedSlotsNdarray.new (input_array : NDArray)
    (values_by_name : List (String × List ℚ)) : Except PyError NamedSlotsNdarray := do
  let implied := values_by_name.map (fun p => p.2.length)
  if input_array.shapeList.take values_by_name.length = implied then do
    let p ← Parameters.init values_by_name Option.none
    return ⟨input_array, p⟩
  else Except.error PyError.valueError

/-- NamedSlotsNdarray._name_based_to_std_index_tuple: start from one
unconstrained full slice per slot, then for each entry require the
name-based kind (TypeError otherwise: the mixed-mode rejection), look the
captured name up (KeyError when absent, also for a missing name) and
overwrite that slot with the standardized index. -/
def nameBasedStep (parameters : Parameters) (conv : List NpIndex)
    (g : GIndexObject) : Except PyError (List NpIndex) :=
  if g.type ≠ "slice.name" then Except.error PyError.typeError
  else
    match g.name with
    | Option.none => Except.error PyError.keyError
    | some nm =>
        match parameters.index_by_name nm with
        | Option.none => Except.error PyError.keyError
        | some slot =>
            if slot < conv.length then Except.ok (conv.set slot g.std_index)
            else Except.error PyError.indexError

def nameBasedToStdIndexTuple (parameters : Parameters) (slot_count : Nat)
    (multi_index : List GIndexObject) : Except PyError (List NpIndex) :=
  multi_index.foldlM (nameBasedStep parameters)
    (List.replicate slot_count (NpIndex.slice Option.none Option.none Option.none))

/-- NamedSlotsNdarray._to_std_index_tuple: inspect only the FIRST entry;
when it is name-based, delegate to the name-based conversion (which
enforces that all entries are name-based); otherwise take each entry
standardized index positionally, with no check on later entries. -/
def toStdIndexTuple (parameters : Parameters) (slot_count : Nat)
    (multi_index : List GIndexObject) : Except PyError (List NpIndex) :=
  match multi_index with
  | [] => .error .indexError
  | first :: _ =>
      if first.type = "slice.name" then
        nameBasedToStdIndexTuple parameters slot_count multi_index
      else .ok (multi_index.map (fun g => g.std_index))

/-- The raw argument of NamedSlotsNdarray.__getitem__: a bare integer, a
bare non-tuple entry, or a tuple of entries. -/
inductive GIndices
  | int (n : Int)
  | single (g : GIndex)
  | tuple (t : List GIndex)
deriving DecidableEq, Repr

/-- The result of indexing: a scalar, or an array with its attached
Parameters. -/
inductive GetResult
  | scalar (q : ℚ)
  | array (a : NamedSlotsNdarray)
deriving Repr

/-- The tuple path of NamedSlotsNdarray.__getitem__: build one GIndexObject
per entry (slot = position), standardize the tuple, index the dense data,
and if the result is still an array attach create_sliced parameters. -/
def NamedSlotsNdarray.getitemTuple (x : NamedSlotsNdarray) (t : List GIndex) :
    Except PyError GetResult := do
  let objs ← t.enum.mapM (fun pr => GIndexObject.make pr.2 x.parameters pr.1)
  let np_indices ← toStdIndexTuple x.parameters x.slot_count objs
  let obj ← applyIndexList np_indices x.data
  match obj with
  | .scalar q => return .scalar q
  | .dim xs => do
      let p2 ← x.parameters.create_sliced np_indices
      return .array ⟨.dim xs, p2⟩

/-- NamedSlotsNdarray.__getitem__: a bare integer takes the fast path
(plain dense indexing; a surviving sub-array keeps the source Parameters
via __array_finalize__, with no re-labeling); any other entry is wrapped
into a tuple and resolved through the standardization pipeline. -/
def NamedSlotsNdarray.getitem (x : NamedSlotsNdarray) (multi_index : GIndices) :
    Except PyError GetResult :=
  match multi_index with
  | .int n => do
      let r ← applyIndexList [NpIndex.int n] x.data
      match r with
      | .scalar q => return .scalar q
      | .dim xs => return .array ⟨.dim xs, x.parameters⟩
  | .single g => x.getitemTuple [g]
  | .tuple t => x.getitemTuple t

/-- The IOData record exchanged at the persistence boundary: the nested
list form of the dense data and the ordered name to values mapping. -/
structure IOData where
  typename : String
  input_array : NDArray
  values_by_name : List (String × List ℚ)
deriving Repr

/-- NamedSlotsNdarray.serialize: record the nested-list data and
parameters.paramvals_by_name. -/
def NamedSlotsNdarray.serialize (x : NamedSlotsNdarray) : IOData :=
  ⟨"NamedSlotsNdarray", x.data, x.parameters.ordered_dict⟩

/-- NamedSlotsNdarray.deserialize: rebuild through the validating
constructor from the two recorded fields. -/
def NamedSlotsNdarray.deserialize (io : IOData) : Except PyError NamedSlotsNdarray :=
  NamedSlotsNdarray.new io.input_array io.values_by_name

/-! Shared concrete fixtures: the two-axis example from the class docstring
(ng with four values, flux with five) and a 4 x 5 dense array over it. -/

/-- The docstring example axes: ng = [-0.1, 0.0, 0.1, 0.2] at slot 0 and
flux = [-1.0, -0.5, 0.0, 0.5, 1.0] at slot 1. -/
def ngFluxParams : Parameters :=
  ⟨["ng", "flux"], [("ng", [-1/10, 0, 1/10, 1/5]), ("flux", [-1, -1/2, 0, 1/2, 1])]⟩

/-- A 4 x 5 dense array whose entry at (i, j) is 10 i + j. -/
def ngFluxData : NDArray :=
  .dim [.dim [.scalar 0, .scalar 1, .scalar 2, .scalar 3, .scalar 4],
        .dim [.scalar 10, .scalar 11, .scalar 12, .scalar 13, .scalar 14],
        .dim [.scalar 20, .scalar 21, .scalar 22, .scalar 23, .scalar 24],
        .dim [.scalar 30, .scalar 31, .scalar 32, .scalar 33, .scalar 34]]

/-- The labeled array over the docstring example axes. -/
def ngFluxArray : NamedSlotsNdarray := ⟨ngFluxData, ngFluxParams⟩

/-! Simp lemmas to evaluate the error monad. -/

@[simp] theorem except_pure_def {ε α : Type} (a : α) :
    (pure a : Except ε α) = Except.ok a := rfl

@[simp] theorem except_bind_ok {ε α β : Type} (a : α) (f : α → Except ε β) :
    (Except.ok a >>= f : Except ε β) = f a := rfl

@[simp] theorem except_bind_error {ε α β : Type} (e : ε) (f : α → Except ε β) :
    (Except.error e >>= f : Except ε β) = Except.error e := rfl

@[simp] theorem except_map_ok {ε α β : Type} (f : α → β) (a : α) :
    (f <$> (Except.ok a : Except ε α)) = Except.ok (f a) := rfl

@[simp] theorem except_map_error {ε α β : Type} (f : α → β) (e : ε) :
    (f <$> (Except.error e : Except ε α)) = Except.error e := rfl

@[simp] theorem except_mapf_ok {ε α β : Type} (f : α → β) (a : α) :
    (Except.ok a : Except ε α).map f = Except.ok (f a) := rfl

@[simp] theorem except_mapf_error {ε α β : Type} (f : α → β) (e : ε) :
    (Except.error e : Except ε α).map f = Except.error e := rfl

/-! Properties of the nearest-value lookup. -/

/-- Position i is the first minimizer of the absolute difference to v in
vals: it is in range, no position has a strictly smaller difference, and
every earlier position has a strictly larger one. -/
def isFirstMin (v : ℚ) (vals : List ℚ) (i : Nat) : Prop :=
  i < vals.length ∧
  (∀ j, j < vals.length → npAbs (vals.getD i 0 - v) ≤ npAbs (vals.getD j 0 - v)) ∧
  (∀ j, j < i → npAbs (vals.getD i 0 - v) < npAbs (vals.getD j 0 - v))

instance (v : ℚ) (vals : List ℚ) (i : Nat) : Decidable (isFirstMin v vals i) := by
  unfold isFirstMin
  exact inferInstance

/-- The argmin accumulator loop either keeps the incoming best position
(when no remaining distance is strictly smaller) or returns the position
of the first strict improvement that is also minimal over the rest. -/
theorem argminFrom_spec (v : ℚ) (xs : List ℚ) : ∀ (i best : Nat) (bestd : ℚ),
    (argminFrom v xs i best bestd = best ∧
      ∀ k, k < xs.length → bestd ≤ npAbs (xs.getD k 0 - v)) ∨
    (∃ k, k < xs.length ∧ argminFrom v xs i best bestd = i + k ∧
      npAbs (xs.getD k 0 - v) < bestd ∧
      (∀ j, j < xs.length → npAbs (xs.getD k 0 - v) ≤ npAbs (xs.getD j 0 - v)) ∧
      (∀ j, j < k → npAbs (xs.getD k 0 - v) < npAbs (xs.getD j 0 - v))) := by
  induction xs with
  | nil =>
      intro i best bestd
      left
      exact ⟨rfl, fun k hk => absurd hk (by simp)⟩
  | cons x xs ih =>
      intro i best bestd
      have hdef : argminFrom v (x :: xs) i best bestd =
          if npAbs (x - v) < bestd then argminFrom v xs (i + 1) i (npAbs (x - v))
          else argminFrom v xs (i + 1) best bestd := rfl
      by_cases h : npAbs (x - v) < bestd
      · rw [hdef, if_pos h]
        rcases ih (i + 1) i (npAbs (x - v)) with ⟨heq, hall⟩ | ⟨k, hk, heq, hlt, hle, hfirst⟩
        · right
          refine ⟨0, by simp, by simpa using heq, by simpa using h, ?_, ?_⟩
          · intro j hj
            cases j with
            | zero => simp
            | succ j => simpa using hall j (by simpa using hj)
          · intro j hj
            exact absurd hj (Nat.not_lt_zero j)
        · right
          refine ⟨k + 1, by simpa using hk, by rw [heq]; omega, ?_, ?_, ?_⟩
          · simpa using hlt.trans h
          · intro j hj
            cases j with
            | zero => simpa using hlt.le
            | succ j => simpa using hle j (by simpa using hj)
          · intro j hj
            cases j with
            | zero => simpa using hlt
            | succ j => simpa using hfirst j (by omega)
      · have hge : bestd ≤ npAbs (x - v) := not_lt.mp h
        rw [hdef, if_neg h]
        rcases ih (i + 1) best bestd with ⟨heq, hall⟩ | ⟨k, hk, heq, hlt, hle, hfirst⟩
        · left
          refine ⟨heq, ?_⟩
          intro k hk
          cases k with
          | zero => simpa using hge
          | succ k => simpa using hall k (by simpa using hk)
        · right
          refine ⟨k + 1, by simpa using hk, by rw [heq]; omega, by simpa using hlt, ?_, ?_⟩
          · intro j hj
            cases j with
            | zero => simpa using (hlt.trans_le hge).le
            | succ j => simpa using hle j (by simpa using hj)
          · intro j hj
            cases j with
            | zero => simpa using hlt.trans_le hge
            | succ j => simpa using hfirst j (by omega)

/-- The location computed by idx_for_value on a non-empty list is the
first minimizer of the absolute difference. -/
theorem argmin_isFirstMin (v x : ℚ) (xs : List ℚ) :
    isFirstMin v (x :: xs) (argminFrom v xs 1 0 (npAbs (x - v))) := by
  rcases argminFrom_spec v xs 1 0 (npAbs (x - v)) with ⟨heq, hall⟩ | ⟨k, hk, heq, hlt, hle, hfirst⟩
  · rw [heq]
    refine ⟨by simp, ?_, ?_⟩
    · intro j hj
      cases j with
      | zero => simp
      | succ j => simpa using hall j (by simpa using hj)
    · intro j hj
      exact absurd hj (Nat.not_lt_zero j)
  · rw [heq]
    have hk1 : 1 + k = k + 1 := by omega
    rw [hk1]
    refine ⟨by simpa using hk, ?_, ?_⟩
    · intro j hj
      cases j with
      | zero => simpa using hlt.le
      | succ j => simpa using hle j (by simpa using hj)
    · intro j hj
      cases j with
      | zero => simpa using hlt
      | succ j => simpa using hfirst j (by omega)

/-- Two first minimizers coincide. -/
theorem isFirstMin_unique (v : ℚ) (vals : List ℚ) (i j : Nat)
    (hi : isFirstMin v vals i) (hj : isFirstMin v vals j) : i = j := by
  rcases Nat.lt_trichotomy i j with hij | hij | hij
  · have h1 := hj.2.2 i hij
    have h2 := hi.2.1 j hj.1
    exact absurd (h2.trans_lt h1) (lt_irrefl _)
  · exact hij
  · have h1 := hi.2.2 j hij
    have h2 := hj.2.1 i hi.1
    exact absurd (h2.trans_lt h1) (lt_irrefl _)

/-- C4: for every numeric axis value sequence and requested value v,
idx_for_value returns the position of the (first) element minimizing the
absolute difference to v exactly when that closest element compares equal
to v under the standard close-enough comparison (math.isclose); otherwise
it fails with ValueError — being merely the closest of all elements is not
sufficient. -/
theorem c4_nearest_index_tolerance (v : ℚ) (vals : List ℚ) (h : vals ≠ []) :
    (∀ i, idx_for_value v vals = .ok i ↔
        (isFirstMin v vals i ∧ isclose (vals.getD i 0) v = true)) ∧
    (idx_for_value v vals = .error .valueError ↔
        ∀ i, isFirstMin v vals i → isclose (vals.getD i 0) v = false) := by
  match vals with
  | [] => exact absurd rfl h
  | x :: xs =>
    have hfm : isFirstMin v (x :: xs) (argminFrom v xs 1 0 (npAbs (x - v))) :=
      argmin_isFirstMin v x xs
    have hcomp : idx_for_value v (x :: xs) =
        if isclose ((x :: xs).getD (argminFrom v xs 1 0 (npAbs (x - v))) 0) v
        then Except.ok (argminFrom v xs 1 0 (npAbs (x - v)))
        else Except.error PyError.valueError := rfl
    by_cases hc : isclose ((x :: xs).getD (argminFrom v xs 1 0 (npAbs (x - v))) 0) v = true
    · constructor
      · intro i
        constructor
        · intro he
          rw [hcomp, if_pos hc] at he
          obtain rfl : argminFrom v xs 1 0 (npAbs (x - v)) = i := by
            simpa using he
          exact ⟨hfm, hc⟩
        · rintro ⟨hfmi, _⟩
          have heq := isFirstMin_unique v (x :: xs) _ i hfm hfmi
          rw [hcomp, if_pos hc, heq]
      · constructor
        · intro he
          rw [hcomp, if_pos hc] at he
          exact absurd he (by simp)
        · intro hall
          have hfalse := hall _ hfm
          rw [hc] at hfalse
          exact absurd hfalse (by simp)
    · have hcf : isclose ((x :: xs).getD (argminFrom v xs 1 0 (npAbs (x - v))) 0) v = false := by
        simpa using hc
      constructor
      · intro i
        constructor
        · intro he
          rw [hcomp, if_neg hc] at he
          exact absurd he (by simp)
        · rintro ⟨hfmi, hci⟩
          have heq := isFirstMin_unique v (x :: xs) i _ hfmi hfm
          rw [heq, hcf] at hci
          exact absurd hci (by simp)
      · constructor
        · intro _ i hfmi
          have heq := isFirstMin_unique v (x :: xs) i _ hfmi hfm
          rw [heq]
          exact hcf
        · intro _
          rw [hcomp, if_neg hc]

/-- Witness for c4_nearest_index_tolerance at v = 1 over the axis [0, 1]:
position 1 is the first minimizer, 1 is close to 1, and the lookup
returns it. -/
theorem c4_nearest_index_tolerance_witness :
    idx_for_value 1 [0, 1] = Except.ok 1 :=
  ((c4_nearest_index_tolerance 1 [0, 1] (by simp)).1 1).mpr
    ⟨⟨by norm_num,
      by intro j hj; simp only [List.length_cons, List.length_nil] at hj
         interval_cases j <;> norm_num [npAbs],
      by intro j hj; interval_cases j; norm_num [npAbs]⟩,
     by norm_num [isclose, npAbs, maxQ]⟩

/-- C3 (code_bug evidence): on the axis [-4.4, -0.1, 0.3, 10.0] used by the
spec and by the class docstring, the value-based entry 0.25 does NOT
resolve to position 2: position 2 (value 0.3) is indeed the closest, but
math.isclose with its default 1e-9 relative tolerance rejects 0.3 against
0.25, so idx_for_value raises ValueError — even though the docstring
promises some_array[0.25, 0:2] --> some_array[2, 0:2]. The second half of
the claim (100.0 fails) does hold. -/
theorem c3_value_lookup_tolerance_bug :
    idx_for_value (1/4) [-22/5, -1/10, 3/10, 10] = .error .valueError ∧
    isFirstMin (1/4) [-22/5, -1/10, 3/10, 10] 2 ∧
    idx_for_value 100 [-22/5, -1/10, 3/10, 10] = .error .valueError := by
  refine ⟨?_, ⟨by norm_num, ?_, ?_⟩, ?_⟩
  · norm_num [idx_for_value, argminFrom, npAbs, isclose, maxQ]
  · intro j hj
    simp only [List.length_cons, List.length_nil] at hj
    interval_cases j <;> norm_num [npAbs]
  · intro j hj
    interval_cases j <;> norm_num [npAbs]
  · norm_num [idx_for_value, argminFrom, npAbs, isclose, maxQ]

/-! Concrete nearest-value evaluations over the docstring axes. -/

/-- Looking 0.5 up among the ng values [-0.1, 0.0, 0.1, 0.2] fails: the
closest value 0.2 is not within tolerance of 0.5. -/
theorem idx_ng_half : idx_for_value (1/2) [-1/10, 0, 1/10, 1/5] = .error .valueError := by
  norm_num [idx_for_value, argminFrom, npAbs, isclose, maxQ]

/-- Looking 0.5 up among the flux values [-1.0, -0.5, 0.0, 0.5, 1.0]
returns position 3 (exact match). -/
theorem idx_flux_half : idx_for_value (1/2) [-1, -1/2, 0, 1/2, 1] = .ok 3 := by
  norm_num [idx_for_value, argminFrom, npAbs, isclose, maxQ]

/-- How GIndexObject.make standardizes a name-based slice with a single
float bound: the captured name is recorded but the float bound is resolved
with idx_for_value against the value sequence of the POSITIONAL slot. -/
theorem make_name_slice_num (P : Parameters) (slot : Nat) (nm : String) (q : ℚ)
    (vals : List ℚ) (hs : P.getSlot slot = .ok vals) :
    GIndexObject.make (.slice (.str nm) (.num q) .none) P slot
      = (idx_for_value q vals).map (fun i =>
          ⟨.slice (.str nm) (.num q) .none, some nm, "slice.name",
           .int (Int.ofNat i)⟩) := by
  cases hq : idx_for_value q vals with
  | ok i => simp [GIndexObject.make, stdSliceEntry, hs, hq]
  | error e => simp [GIndexObject.make, stdSliceEntry, hs, hq]

/-- C1 (code_bug evidence): for the docstring axes ng (slot 0) and flux
(slot 1), the name-based entry slice("flux", 0.5) written at tuple
position 0 resolves its float bound against the POSITIONALLY slotted axis
ng (self.parameters[self.slot]) and so raises ValueError, although the
axis named flux contains 0.5 exactly (at position 3, as the same entry
placed at tuple position 1 shows). The spec and the class docstring
(some_array["flux":0.5]) require the lookup to use the axis named by the
captured string. -/
theorem c1_name_slice_positional_lookup_bug :
    GIndexObject.make (.slice (.str "flux") (.num (1/2)) .none) ngFluxParams 0
      = .error .valueError ∧
    GIndexObject.make (.slice (.str "flux") (.num (1/2)) .none) ngFluxParams 1
      = .ok ⟨.slice (.str "flux") (.num (1/2)) .none, some "flux", "slice.name",
             .int 3⟩ := by
  constructor
  · rw [make_name_slice_num ngFluxParams 0 "flux" (1/2) [-1/10, 0, 1/10, 1/5] rfl,
      idx_ng_half]
    rfl
  · rw [make_name_slice_num ngFluxParams 1 "flux" (1/2) [-1, -1/2, 0, 1/2, 1] rfl,
      idx_flux_half]
    rfl

/-! The mixed-mode rule. -/

/-- Folding the name-based conversion over a list containing a non
name-based entry ends in the mixed-mode TypeError, provided every
name-based entry carries a known name resolving to an in-range slot (so
that no earlier error preempts it). -/
theorem nameBased_mixed_error (parameters : Parameters) :
    ∀ (objs : List GIndexObject) (conv : List NpIndex),
    (∀ g ∈ objs, g.type = "slice.name" →
        ∃ nm i, g.name = some nm ∧ parameters.index_by_name nm = some i ∧
          i < conv.length) →
    (∃ g ∈ objs, g.type ≠ "slice.name") →
    objs.foldlM (nameBasedStep parameters) conv = .error .typeError := by
  intro objs
  induction objs with
  | nil =>
      intro conv _ hex
      rcases hex with ⟨g, hg, _⟩
      exact absurd hg (by simp)
  | cons g gs ih =>
      intro conv hvalid hex
      rw [List.foldlM_cons]
      by_cases hg : g.type = "slice.name"
      · obtain ⟨nm, i, hnm, hidx, hlt⟩ := hvalid g (by simp) hg
        have hstep : nameBasedStep parameters conv g =
            Except.ok (conv.set i g.std_index) := by
          simp [nameBasedStep, hg, hnm, hidx, hlt]
        rw [hstep]
        have hex2 : ∃ g2 ∈ gs, g2.type ≠ "slice.name" := by
          rcases hex with ⟨g2, hg2, hne⟩
          rcases List.mem_cons.mp hg2 with rfl | hmem
          · exact absurd hg hne
          · exact ⟨g2, hmem, hne⟩
        have hvalid2 : ∀ g2 ∈ gs, g2.type = "slice.name" →
            ∃ nm2 i2, g2.name = some nm2 ∧ parameters.index_by_name nm2 = some i2 ∧
              i2 < (conv.set i g.std_index).length := by
          intro g2 hg2 ht
          obtain ⟨nm2, i2, h1, h2, h3⟩ := hvalid g2 (by simp [hg2]) ht
          exact ⟨nm2, i2, h1, h2, by simpa using h3⟩
        simpa using ih (conv.set i g.std_index) hvalid2 hex2
      · have hstep : nameBasedStep parameters conv g = Except.error PyError.typeError := by
          simp [nameBasedStep, hg]
        rw [hstep]
        rfl

/-- C2 amended: mixed-mode rejection is one-directional. When the FIRST
classified entry is name-based and the entries classify cleanly (known
names, in-range slots), any non name-based entry in the tuple makes the
conversion fail with the mixed-mode TypeError; but when the first entry is
NOT name-based, no check is performed at all — the standardized indices of
all entries (including any later name-based ones) are used positionally in
order. -/
theorem c2_mixed_mode_first_entry_rule (parameters : Parameters) (slot_count : Nat)
    (first : GIndexObject) (rest : List GIndexObject)
    (hvalid : ∀ g ∈ first :: rest, g.type = "slice.name" →
        ∃ nm i, g.name = some nm ∧ parameters.index_by_name nm = some i ∧
          i < slot_count) :
    (first.type = "slice.name" → (∃ g ∈ first :: rest, g.type ≠ "slice.name") →
        toStdIndexTuple parameters slot_count (first :: rest) = .error .typeError) ∧
    (first.type ≠ "slice.name" →
        toStdIndexTuple parameters slot_count (first :: rest) =
          .ok ((first :: rest).map (fun g => g.std_index))) := by
  constructor
  · intro h1 h2
    have heq : toStdIndexTuple parameters slot_count (first :: rest) =
        nameBasedToStdIndexTuple parameters slot_count (first :: rest) := by
      simp [toStdIndexTuple, h1]
    rw [heq, nameBasedToStdIndexTuple]
    exact nameBased_mixed_error parameters (first :: rest) _
      (by simpa using hvalid) h2
  · intro h1
    simp [toStdIndexTuple, h1]

/-- A standardized name-based entry for flux with integer bound 1, as
GIndexObject.make produces it at any slot. -/
def gobjFlux : GIndexObject :=
  ⟨.slice (.str "flux") (.int 1) .none, some "flux", "slice.name", .int 1⟩

/-- A standardized plain integer entry 0. -/
def gobjInt : GIndexObject := ⟨.int 0, Option.none, "int", .int 0⟩

/-- Witness for c2_mixed_mode_first_entry_rule: over the docstring axes,
a name-based first entry followed by a positional entry is rejected with
the mixed-mode TypeError. -/
theorem c2_mixed_mode_first_entry_rule_witness :
    toStdIndexTuple ngFluxParams 2 [gobjFlux, gobjInt] = .error .typeError :=
  (c2_mixed_mode_first_entry_rule ngFluxParams 2 gobjFlux [gobjInt]
    (by
      intro g hg ht
      rcases List.mem_cons.mp hg with rfl | hg2
      · exact ⟨"flux", 1, rfl, rfl, by omega⟩
      · simp only [List.mem_singleton] at hg2
        subst hg2
        exact absurd ht (by simp [gobjInt]))).1 rfl
    ⟨gobjInt, by simp, by simp [gobjInt]⟩

/-- C2 counterexample: a mixed multi-axis expression whose FIRST entry is
positional is NOT rejected: over the docstring axes, get((0, flux-slice))
resolves the name-based entry positionally through its standardized index
and returns the dense element at (0, 1) instead of raising MixedModeError. -/
theorem c2_mixed_positional_first_counterexample :
    NamedSlotsNdarray.getitem ngFluxArray
      (.tuple [.int 0, .slice (.str "flux") (.int 1) .none]) = .ok (.scalar 1) := rfl

/-! Construction of Parameters. -/

/-- When every listed name is present in the mapping, the dict
comprehension of Parameters.__init__ succeeds and produces exactly the
looked-up pairs. -/
theorem mapM_lookupEntry_ok (m : List (String × List ℚ)) :
    ∀ (l : List String), (∀ n ∈ l, (lookupName m n).isSome) →
    l.mapM (lookupEntry m) =
      Except.ok (l.map (fun n => (n, (lookupName m n).getD []))) := by
  intro l
  induction l with
  | nil => intro _; rfl
  | cons n ns ih =>
      intro h
      obtain ⟨vs, hvs⟩ := Option.isSome_iff_exists.mp (h n (by simp))
      have hns := ih (fun x hx => h x (by simp [hx]))
      rw [List.mapM_cons, hns]
      simp [lookupEntry, hvs]

/-- C5 counterexample: Parameters construction performs no validation at
all — it succeeds on an axis with an empty value sequence and on a
duplicated name in the ordering list, with no ConfigurationError. -/
theorem c5_no_validation_counterexample :
    Parameters.init [("a", [])] Option.none = .ok ⟨["a"], [("a", [])]⟩ ∧
    Parameters.init [("a", [1])] (some ["a", "a"]) = .ok ⟨["a", "a"], [("a", [1])]⟩ :=
  ⟨rfl, rfl⟩

/-- C5 amended: constructing Parameters from a name to value-sequence
mapping never raises a configuration error: for EVERY input whose listed
names occur in the mapping — including repeated names and empty value
sequences, and in particular for every input with distinct names and
non-empty sequences — construction succeeds. -/
theorem c5_init_never_validates (m : List (String × List ℚ))
    (names : Option (List String))
    (h : ∀ n ∈ names.getD (m.map (fun p => p.1)), (lookupName m n).isSome) :
    ∃ p, Parameters.init m names = .ok p := by
  have hgoal : Parameters.init m names =
      .ok ⟨names.getD (m.map (fun p => p.1)),
           ((names.getD (m.map (fun p => p.1))).map
              (fun n => (n, (lookupName m n).getD []))).foldl
             (fun d pr => odictSet d pr.1 pr.2) []⟩ := by
    simp only [Parameters.init]
    rw [mapM_lookupEntry_ok m _ h]
    rfl
  exact ⟨_, hgoal⟩

/-- Witness for c5_init_never_validates on a concrete two-axis mapping. -/
theorem c5_init_never_validates_witness :
    ∃ p, Parameters.init [("b", [1, 2]), ("c", [3])] Option.none = .ok p :=
  c5_init_never_validates [("b", [1, 2]), ("c", [3])] Option.none (by decide)

/-! The create_sliced derivation. -/

/-- C7 (code_bug evidence): when ALL axis value arrays have equal length,
np.asarray(paramvals_list, dtype=object) coalesces them into a 2-d object
array, and the in-place row assignment broadcasts: an integer index that
should collapse and drop axis a instead leaves it as a full-length row
[a0, a0], which passes the length-greater-1 filter, so the axis is NOT
dropped (first conjunct). With unequal lengths (ragged object array) the
same call behaves exactly as the claim states and drops axis a (second
conjunct). -/
theorem c7_create_sliced_rectangular_bug :
    Parameters.create_sliced ⟨["a", "b"], [("a", [0, 1]), ("b", [2, 3])]⟩
        [.int 0]
      = .ok ⟨["a", "b"], [("a", [0, 0]), ("b", [2, 3])]⟩ ∧
    Parameters.create_sliced ⟨["a", "b"], [("a", [0, 1]), ("b", [2, 3, 4])]⟩
        [.int 0]
      = .ok ⟨["b"], [("b", [2, 3, 4])]⟩ :=
  ⟨rfl, rfl⟩

/-- C6 (code_bug evidence): positional equivalence fails. Over the validly
constructed labeled array with one named axis p1 = [1.0, 2.0, 3.0] and
dense data [10, 20, 30] (first conjunct), the plain standard slice 0:2
yields [10, 20] on the dense array directly (second conjunct), but
indexing the labeled array with the same slice raises ValueError: the
single-axis paramvals list forms a rectangular (1, 3) object array and
writing the length-2 slice result back into its length-3 row is a numpy
broadcast error inside create_sliced (third conjunct). -/
theorem c6_positional_equivalence_bug :
    NamedSlotsNdarray.new (.dim [.scalar 10, .scalar 20, .scalar 30])
        [("p1", [1, 2, 3])]
      = .ok ⟨.dim [.scalar 10, .scalar 20, .scalar 30],
             ⟨["p1"], [("p1", [1, 2, 3])]⟩⟩ ∧
    applyIndexList [.slice (some 0) (some 2) Option.none]
        (.dim [.scalar 10, .scalar 20, .scalar 30])
      = .ok (.dim [.scalar 10, .scalar 20]) ∧
    NamedSlotsNdarray.getitem
        ⟨.dim [.scalar 10, .scalar 20, .scalar 30], ⟨["p1"], [("p1", [1, 2, 3])]⟩⟩
        (.single (.slice (.int 0) (.int 2) .none))
      = .error .valueError :=
  ⟨rfl, rfl, rfl⟩

/-! The bare-integer fast path. -/

/-- C10: indexing with an in-range bare integer (not wrapped in a tuple)
on an array of dimension at least 2 returns the sub-array carrying the
SOURCE Parameters unchanged — no sliced or reduced labeling is derived,
so the attached labels are those of the full source array. -/
theorem c10_bare_int_keeps_parameters (x : NamedSlotsNdarray) (n : Int)
    (ys : List NDArray)
    (h : applyIndexList [NpIndex.int n] x.data = .ok (.dim ys)) :
    x.getitem (.int n) = .ok (.array ⟨.dim ys, x.parameters⟩) := by
  simp [NamedSlotsNdarray.getitem, h]

/-- Witness for c10_bare_int_keeps_parameters: row 1 of the docstring
array still carries the full two-axis Parameters. -/
theorem c10_bare_int_keeps_parameters_witness :
    NamedSlotsNdarray.getitem ngFluxArray (.int 1)
      = .ok (.array ⟨.dim [.scalar 10, .scalar 11, .scalar 12, .scalar 13,
                           .scalar 14], ngFluxParams⟩) :=
  c10_bare_int_keeps_parameters ngFluxArray 1 _ rfl

/-! Ordered-dict facts used for the round-trip and reduce proofs. -/

/-- The key list of an ordered association list. -/
def keysOf (d : List (String × List ℚ)) : List String := d.map (fun p => p.1)

theorem keysOf_nil : keysOf [] = [] := rfl

theorem keysOf_cons (k : String) (v : List ℚ) (d : List (String × List ℚ)) :
    keysOf ((k, v) :: d) = k :: keysOf d := rfl

theorem keysOf_append (d e : List (String × List ℚ)) :
    keysOf (d ++ e) = keysOf d ++ keysOf e := by
  simp [keysOf]

theorem lookupName_nil (k : String) : lookupName [] k = Option.none := rfl

theorem lookupName_cons (k0 : String) (v0 : List ℚ) (d : List (String × List ℚ))
    (k : String) :
    lookupName ((k0, v0) :: d) k = if k0 = k then some v0 else lookupName d k := by
  by_cases h : k0 = k <;> simp [lookupName, List.find?, h]

theorem lookupName_isSome_iff (d : List (String × List ℚ)) (k : String) :
    (lookupName d k).isSome ↔ k ∈ keysOf d := by
  induction d with
  | nil => simp [lookupName_nil, keysOf_nil]
  | cons p t ih =>
      obtain ⟨k0, v0⟩ := p
      by_cases h : k0 = k
      · subst h
        simp [lookupName_cons, keysOf_cons]
      · simp [lookupName_cons, keysOf_cons, h, Ne.symm h, ih]

theorem mem_keys_of_lookup (d : List (String × List ℚ)) (k : String) (v : List ℚ)
    (h : lookupName d k = some v) : k ∈ keysOf d :=
  (lookupName_isSome_iff d k).mp (by simp [h])

theorem lookupName_odictSet_self (d : List (String × List ℚ)) (k : String)
    (v : List ℚ) : lookupName (odictSet d k v) k = some v := by
  induction d with
  | nil => simp [odictSet, lookupName_cons]
  | cons p t ih =>
      obtain ⟨k0, v0⟩ := p
      by_cases h : k0 = k
      · simp [odictSet, h, lookupName_cons]
      · simp [odictSet, h, lookupName_cons, ih]

theorem lookupName_odictSet_ne (d : List (String × List ℚ)) (k k2 : String)
    (v : List ℚ) (h : k2 ≠ k) :
    lookupName (odictSet d k v) k2 = lookupName d k2 := by
  induction d with
  | nil => simp [odictSet, lookupName_cons, lookupName_nil, Ne.symm h]
  | cons p t ih =>
      obtain ⟨k0, v0⟩ := p
      by_cases h0 : k0 = k
      · subst h0
        simp [odictSet, lookupName_cons, Ne.symm h]
      · simp [odictSet, h0, lookupName_cons, ih]

theorem keysOf_odictSet_mem (d : List (String × List ℚ)) (k : String) (v : List ℚ)
    (h : k ∈ keysOf d) : keysOf (odictSet d k v) = keysOf d := by
  induction d with
  | nil => simp [keysOf_nil] at h
  | cons p t ih =>
      obtain ⟨k0, v0⟩ := p
      by_cases h0 : k0 = k
      · subst h0
        simp [odictSet, keysOf_cons]
      · have hmem : k ∈ keysOf t := by
          rcases List.mem_cons.mp (by simpa [keysOf_cons] using h) with h1 | h1
          · exact absurd h1.symm h0
          · exact h1
        simp [odictSet, h0, keysOf_cons, ih hmem]

theorem keysOf_odictSet_not_mem (d : List (String × List ℚ)) (k : String)
    (v : List ℚ) (h : ¬ k ∈ keysOf d) :
    keysOf (odictSet d k v) = keysOf d ++ [k] := by
  induction d with
  | nil => simp [odictSet, keysOf]
  | cons p t ih =>
      obtain ⟨k0, v0⟩ := p
      have h0 : ¬ k0 = k := by
        intro h0
        exact h (by simp [keysOf_cons, h0])
      have hmem : ¬ k ∈ keysOf t := by
        intro hmem
        exact h (by simp [keysOf_cons, hmem])
      simp [odictSet, h0, keysOf_cons, ih hmem]

theorem nodup_keysOf_odictSet (d : List (String × List ℚ)) (k : String)
    (v : List ℚ) (h : (keysOf d).Nodup) : (keysOf (odictSet d k v)).Nodup := by
  by_cases hm : k ∈ keysOf d
  · rw [keysOf_odictSet_mem d k v hm]
    exact h
  · rw [keysOf_odictSet_not_mem d k v hm]
    simp [List.nodup_append, h, hm]

theorem odictSet_id (d : List (String × List ℚ)) (k : String) (v : List ℚ)
    (hnd : (keysOf d).Nodup) (h : lookupName d k = some v) : odictSet d k v = d := by
  induction d with
  | nil => simp [lookupName_nil] at h
  | cons p t ih =>
      obtain ⟨k0, v0⟩ := p
      by_cases h0 : k0 = k
      · subst h0
        have hv : v0 = v := by simpa [lookupName_cons] using h
        simp [odictSet, hv]
      · have ht : lookupName t k = some v := by simpa [lookupName_cons, h0] using h
        have hnd2 : (keysOf t).Nodup := by
          rw [keysOf_cons] at hnd
          exact hnd.of_cons
        simp [odictSet, h0, ih hnd2 ht]

theorem odictSet_append (d : List (String × List ℚ)) (k : String) (v : List ℚ)
    (h : ¬ k ∈ keysOf d) : odictSet d k v = d ++ [(k, v)] := by
  induction d with
  | nil => rfl
  | cons p t ih =>
      obtain ⟨k0, v0⟩ := p
      have h0 : ¬ k0 = k := by
        intro h0
        exact h (by simp [keysOf_cons, h0])
      have hmem : ¬ k ∈ keysOf t := by
        intro hmem
        exact h (by simp [keysOf_cons, hmem])
      simp [odictSet, h0, ih hmem]

/-- Folding dict insertion over entries whose keys are fresh and distinct
appends them in order. -/
theorem foldl_odictSet_acc :
    ∀ (d acc : List (String × List ℚ)),
    (keysOf d).Nodup → (∀ k ∈ keysOf d, ¬ k ∈ keysOf acc) →
    d.foldl (fun a pr => odictSet a pr.1 pr.2) acc = acc ++ d := by
  intro d
  induction d with
  | nil => intro acc _ _; simp
  | cons p t ih =>
      intro acc hnd hdisj
      obtain ⟨k, v⟩ := p
      rw [List.foldl_cons]
      have hknacc : ¬ k ∈ keysOf acc := hdisj k (by simp [keysOf_cons])
      rw [odictSet_append acc k v hknacc]
      have hndk : ¬ k ∈ keysOf t := by
        rw [keysOf_cons] at hnd
        exact (List.nodup_cons.mp hnd).1
      have hnd2 : (keysOf t).Nodup := by
        rw [keysOf_cons] at hnd
        exact (List.nodup_cons.mp hnd).2
      have hdisj2 : ∀ k2 ∈ keysOf t, ¬ k2 ∈ keysOf (acc ++ [(k, v)]) := by
        intro k2 hk2 hk2acc
        rw [keysOf_append] at hk2acc
        rcases List.mem_append.mp hk2acc with hmem | hmem
        · exact hdisj k2 (by simp [keysOf_cons, hk2]) hmem
        · have : k2 = k := by simpa [keysOf] using hmem
          exact hndk (this ▸ hk2)
      rw [ih (acc ++ [(k, v)]) hnd2 hdisj2]
      simp

/-- A duplicate-free ordered dict is rebuilt unchanged by the insertion
fold of Parameters.__init__. -/
theorem foldl_odictSet_self (d : List (String × List ℚ))
    (hnd : (keysOf d).Nodup) :
    d.foldl (fun a pr => odictSet a pr.1 pr.2) [] = d := by
  simpa using foldl_odictSet_acc d [] hnd (by simp [keysOf_nil])

/-- Looking every key of a duplicate-free dict up in that dict returns the
dict itself. -/
theorem map_lookup_self (d : List (String × List ℚ))
    (hnd : (keysOf d).Nodup) :
    (keysOf d).map (fun n => (n, (lookupName d n).getD [])) = d := by
  induction d with
  | nil => rfl
  | cons p t ih =>
      obtain ⟨k, v⟩ := p
      rw [keysOf_cons] at hnd ⊢
      have hndk : ¬ k ∈ keysOf t := (List.nodup_cons.mp hnd).1
      have hnd2 : (keysOf t).Nodup := (List.nodup_cons.mp hnd).2
      rw [List.map_cons]
      have hhead : (k, (lookupName ((k, v) :: t) k).getD []) = (k, v) := by
        simp [lookupName_cons]
      rw [hhead]
      have htail : (keysOf t).map (fun n => (n, (lookupName ((k, v) :: t) n).getD []))
          = (keysOf t).map (fun n => (n, (lookupName t n).getD [])) := by
        apply List.map_congr_left
        intro n hn
        have hne : ¬ k = n := by
          intro h
          exact hndk (h ▸ hn)
        rw [lookupName_cons, if_neg hne]
      rw [htail, ih hnd2]

/-- Parameters.__init__ on a duplicate-free mapping with no explicit name
list succeeds and stores the key list and the mapping unchanged. -/
theorem init_of_nodup (m : List (String × List ℚ))
    (hnd : (keysOf m).Nodup) :
    Parameters.init m Option.none = .ok ⟨keysOf m, m⟩ := by
  have hsome : ∀ n ∈ keysOf m, (lookupName m n).isSome := fun n hn =>
    (lookupName_isSome_iff m n).mpr hn
  have hmapM := mapM_lookupEntry_ok m (keysOf m) hsome
  simp only [Parameters.init, Option.getD_none]
  have hkeys : m.map (fun p => p.1) = keysOf m := rfl
  rw [hkeys, hmapM]
  rw [except_bind_ok]
  rw [map_lookup_self m hnd, foldl_odictSet_self m hnd]
  rfl

/-- C8: serialize records the nested-list data and the ordered name to
value-sequence mapping; deserialize validates and rebuilds. For every
labeled array built by the validating constructor (over a Python dict,
whose keys are distinct), deserializing the serialization returns the very
same labeled array: identical underlying data and identical ordered
mapping. -/
theorem c8_serialize_roundtrip (A : NDArray) (vbn : List (String × List ℚ))
    (hnd : (keysOf vbn).Nodup) (x : NamedSlotsNdarray)
    (hx : NamedSlotsNdarray.new A vbn = .ok x) :
    NamedSlotsNdarray.deserialize (NamedSlotsNdarray.serialize x) = .ok x := by
  unfold NamedSlotsNdarray.new at hx
  by_cases hsh : A.shapeList.take vbn.length = vbn.map (fun p => p.2.length)
  · rw [if_pos hsh, init_of_nodup vbn hnd, except_bind_ok] at hx
    have hx2 : x = ⟨A, ⟨keysOf vbn, vbn⟩⟩ := by
      cases hx
      rfl
    subst hx2
    show NamedSlotsNdarray.new A vbn = _
    unfold NamedSlotsNdarray.new
    rw [if_pos hsh, init_of_nodup vbn hnd, except_bind_ok]
    rfl
  · rw [if_neg hsh] at hx
    exact absurd hx (by simp)

/-- Witness for c8_serialize_roundtrip on a one-axis labeled array. -/
theorem c8_serialize_roundtrip_witness :
    NamedSlotsNdarray.deserialize
        (NamedSlotsNdarray.serialize ⟨.dim [.scalar 5], ⟨["a"], [("a", [7])]⟩⟩)
      = .ok ⟨.dim [.scalar 5], ⟨["a"], [("a", [7])]⟩⟩ :=
  c8_serialize_roundtrip (.dim [.scalar 5]) [("a", [7])] (by decide) _ rfl

/-! The create_reduced derivation. -/

/-- The overwrite loop of create_reduced as repeated dict assignment along
one value function. -/
def updAll (d : List (String × List ℚ)) (l : List String)
    (g : String → List ℚ) : List (String × List ℚ) :=
  l.foldl (fun d n => odictSet d n (g n)) d

theorem lookupName_updAll (g : String → List ℚ) (k : String) :
    ∀ (l : List String) (d : List (String × List ℚ)),
    lookupName (updAll d l g) k = if k ∈ l then some (g k) else lookupName d k := by
  intro l
  induction l with
  | nil => intro d; simp [updAll]
  | cons n ns ih =>
      intro d
      have hstep : updAll d (n :: ns) g = updAll (odictSet d n (g n)) ns g := by
        simp [updAll]
      rw [hstep, ih]
      by_cases hns : k ∈ ns
      · simp [hns]
      · by_cases hkn : k = n
        · subst hkn
          simp [hns, lookupName_odictSet_self]
        · simp [hns, hkn, lookupName_odictSet_ne d n k (g n) hkn]

theorem keysOf_updAll (g : String → List ℚ) :
    ∀ (l : List String) (d : List (String × List ℚ)),
    (∀ n ∈ l, n ∈ keysOf d) → keysOf (updAll d l g) = keysOf d := by
  intro l
  induction l with
  | nil => intro d _; simp [updAll]
  | cons n ns ih =>
      intro d h
      have hstep : updAll d (n :: ns) g = updAll (odictSet d n (g n)) ns g := by
        simp [updAll]
      have hkeys : keysOf (odictSet d n (g n)) = keysOf d :=
        keysOf_odictSet_mem d n (g n) (h n (by simp))
      rw [hstep, ih (odictSet d n (g n)) (fun n2 hn2 => by
        rw [hkeys]
        exact h n2 (by simp [hn2])), hkeys]

theorem updAll_id (g : String → List ℚ) :
    ∀ (l : List String) (d : List (String × List ℚ)),
    (keysOf d).Nodup → (∀ n ∈ l, lookupName d n = some (g n)) →
    updAll d l g = d := by
  intro l
  induction l with
  | nil => intro d _ _; simp [updAll]
  | cons n ns ih =>
      intro d hnd h
      have hstep : updAll d (n :: ns) g = updAll (odictSet d n (g n)) ns g := by
        simp [updAll]
      have hset : odictSet d n (g n) = d := odictSet_id d n (g n) hnd (h n (by simp))
      rw [hstep, hset, ih d hnd (fun n2 hn2 => h n2 (by simp [hn2]))]

/-- When every named axis has a non-empty value sequence, the default
fixed values of create_reduced are the singleton first values. -/
theorem mapM_firstValEntry (d : List (String × List ℚ)) :
    ∀ (l : List String), (∀ n ∈ l, ∃ x xs, lookupName d n = some (x :: xs)) →
    l.mapM (firstValEntry d) =
      .ok (l.map (fun n => [((lookupName d n).getD []).headI])) := by
  intro l
  induction l with
  | nil => intro _; rfl
  | cons n ns ih =>
      intro h
      obtain ⟨x, xs, hx⟩ := h n (by simp)
      have hns := ih (fun n2 hn2 => h n2 (by simp [hn2]))
      rw [List.mapM_cons, hns]
      simp [firstValEntry, hx]

/-- The enumerate-and-overwrite loop of create_reduced, when the
fixed-value list is long enough, is the dict-assignment fold over the
zipped pairs. -/
theorem foldlM_fixedStep (fv : List (List ℚ)) :
    ∀ (l : List String) (i : Nat) (d : List (String × List ℚ)),
    i + l.length ≤ fv.length →
    (List.enumFrom i l).foldlM (fixedStep fv) d =
      .ok ((l.zip (fv.drop i)).foldl (fun d pr => odictSet d pr.1 pr.2) d) := by
  intro l
  induction l with
  | nil => intro i d _; simp
  | cons n ns ih =>
      intro i d hlen
      have hi : i < fv.length := by
        simp only [List.length_cons] at hlen
        omega
      have hv : fv[i]? = some fv[i] := List.getElem?_eq_getElem hi
      rw [List.enumFrom_cons, List.foldlM_cons]
      have hstep : fixedStep fv d (i, n) = .ok (odictSet d n fv[i]) := by
        simp [fixedStep, hv]
      rw [hstep, except_bind_ok]
      have hbound : i + 1 + ns.length ≤ fv.length := by
        simp only [List.length_cons] at hlen
        omega
      rw [ih (i + 1) (odictSet d n fv[i]) hbound]
      have hdrop : fv.drop i = fv[i] :: fv.drop (i + 1) :=
        List.drop_eq_getElem_cons hi
      rw [hdrop]
      rfl

/-- Full evaluation of create_reduced with default fixed values on a
well-formed Parameters: every named axis is overwritten with the singleton
holding its first value, all axes are kept, and the name order is
unchanged. -/
theorem create_reduced_eval (p : Parameters) (names : List String)
    (h1 : p.paramnames_list = keysOf p.ordered_dict)
    (h2 : (keysOf p.ordered_dict).Nodup)
    (h3 : ∀ n ∈ names, ∃ x xs, lookupName p.ordered_dict n = some (x :: xs)) :
    p.create_reduced names Option.none =
      .ok ⟨keysOf p.ordered_dict,
           updAll p.ordered_dict names
             (fun n => [((lookupName p.ordered_dict n).getD []).headI])⟩ := by
  have hmem : ∀ n ∈ names, n ∈ keysOf p.ordered_dict := by
    intro n hn
    obtain ⟨x, xs, hx⟩ := h3 n hn
    exact mem_keys_of_lookup _ n _ hx
  have hfv := mapM_firstValEntry p.ordered_dict names h3
  have hbase := mapM_lookupEntry_ok p.ordered_dict (keysOf p.ordered_dict)
    (fun n hn => (lookupName_isSome_iff _ n).mpr hn)
  unfold Parameters.create_reduced
  dsimp only
  rw [hfv, except_bind_ok, h1, hbase, except_bind_ok]
  rw [map_lookup_self _ h2, foldl_odictSet_self _ h2]
  have henum : names.enum = List.enumFrom 0 names := rfl
  rw [henum, foldlM_fixedStep _ names 0 p.ordered_dict (by simp), except_bind_ok]
  have hzip : names.zip
      (((names.map (fun n => [((lookupName p.ordered_dict n).getD []).headI]))).drop 0)
      = names.map (fun n =>
          (n, [((lookupName p.ordered_dict n).getD []).headI])) := by
    rw [List.drop_zero]
    simpa using
      (List.zip_map' id (fun n => [((lookupName p.ordered_dict n).getD []).headI]) names)
  rw [hzip, List.foldl_map]
  have hupd : names.foldl
      (fun d n => odictSet d (n, [((lookupName p.ordered_dict n).getD []).headI]).1
        (n, [((lookupName p.ordered_dict n).getD []).headI]).2) p.ordered_dict
      = updAll p.ordered_dict names
          (fun n => [((lookupName p.ordered_dict n).getD []).headI]) := rfl
  rw [hupd]
  have hnd2 : (keysOf (updAll p.ordered_dict names
      (fun n => [((lookupName p.ordered_dict n).getD []).headI]))).Nodup := by
    rw [keysOf_updAll _ names p.ordered_dict hmem]
    exact h2
  rw [init_of_nodup _ hnd2, keysOf_updAll _ names p.ordered_dict hmem]

/-- C9: on a well-formed Parameters (names equal to the dict keys, no
duplicates) whose named axes all have non-empty value sequences, applying
create_reduced with a name list and no external fixed values succeeds; a
second application returns the SAME Parameters (so reducing
already-reduced axes is idempotent and does not fail), the axis ordering
is unchanged, and every named axis ends with the length-1 sequence holding
its original first value. -/
theorem c9_reduce_idempotent (p : Parameters) (names : List String)
    (h1 : p.paramnames_list = keysOf p.ordered_dict)
    (h2 : (keysOf p.ordered_dict).Nodup)
    (h3 : ∀ n ∈ names, ∃ x xs, lookupName p.ordered_dict n = some (x :: xs)) :
    ∃ p1, p.create_reduced names Option.none = .ok p1 ∧
      p1.create_reduced names Option.none = .ok p1 ∧
      p1.paramnames_list = p.paramnames_list ∧
      ∀ n ∈ names, lookupName p1.ordered_dict n =
        some [((lookupName p.ordered_dict n).getD []).headI] := by
  have hmem : ∀ n ∈ names, n ∈ keysOf p.ordered_dict := by
    intro n hn
    obtain ⟨x, xs, hx⟩ := h3 n hn
    exact mem_keys_of_lookup _ n _ hx
  have hkeysupd : keysOf (updAll p.ordered_dict names
      (fun n => [((lookupName p.ordered_dict n).getD []).headI]))
      = keysOf p.ordered_dict := keysOf_updAll _ names p.ordered_dict hmem
  have h2u : (keysOf (updAll p.ordered_dict names
      (fun n => [((lookupName p.ordered_dict n).getD []).headI]))).Nodup := by
    rw [hkeysupd]
    exact h2
  have hlookupd : ∀ n ∈ names,
      lookupName (updAll p.ordered_dict names
        (fun n => [((lookupName p.ordered_dict n).getD []).headI])) n
      = some [((lookupName p.ordered_dict n).getD []).headI] := by
    intro n hn
    rw [lookupName_updAll]
    simp [hn]
  refine ⟨⟨keysOf p.ordered_dict,
           updAll p.ordered_dict names
             (fun n => [((lookupName p.ordered_dict n).getD []).headI])⟩,
    create_reduced_eval p names h1 h2 h3, ?_, h1.symm, hlookupd⟩
  have h3u : ∀ n ∈ names, ∃ x xs,
      lookupName (updAll p.ordered_dict names
        (fun n => [((lookupName p.ordered_dict n).getD []).headI])) n
      = some (x :: xs) :=
    fun n hn => ⟨_, [], hlookupd n hn⟩
  rw [create_reduced_eval _ names hkeysupd.symm h2u h3u]
  have hsame : updAll
      (updAll p.ordered_dict names
        (fun n => [((lookupName p.ordered_dict n).getD []).headI])) names
      (fun n => [((lookupName (updAll p.ordered_dict names
          (fun n => [((lookupName p.ordered_dict n).getD []).headI])) n).getD
        []).headI])
      = updAll p.ordered_dict names
          (fun n => [((lookupName p.ordered_dict n).getD []).headI]) := by
    apply updAll_id _ names _ h2u
    intro n hn
    rw [hlookupd n hn]
    simp
  rw [hsame, hkeysupd]

/-- Witness for c9_reduce_idempotent on a concrete two-axis Parameters,
reducing axis a. -/
theorem c9_reduce_idempotent_witness :
    ∃ p1, Parameters.create_reduced ⟨["a", "b"], [("a", [1, 2]), ("b", [3])]⟩
        ["a"] Option.none = .ok p1 ∧
      p1.create_reduced ["a"] Option.none = .ok p1 ∧
      p1.paramnames_list
        = (Parameters.mk ["a", "b"] [("a", [1, 2]), ("b", [3])]).paramnames_list ∧
      ∀ n ∈ ["a"],
        lookupName p1.ordered_dict n =
          some [((lookupName [("a", [1, 2]), ("b", [3])] n).getD []).headI] :=
  c9_reduce_idempotent ⟨["a", "b"], [("a", [1, 2]), ("b", [3])]⟩ ["a"] rfl
    (by decide)
    (by
      intro n hn
      simp only [List.mem_singleton] at hn
      subst hn
      exact ⟨1, [2], rfl⟩)

end NamedSlots
